import Mathlib

/-!
Shallow embedding of the qonvert sources (src/lib.rs, src/progress.rs,
src/main.rs, src/path.rs) and proofs about the spec's claims.

Rust strings are modelled as lists of characters; the streams carry lines
already split by the BufReader (so a line never holds a line break).
Machine integers (u64) are modelled as Nat with the 2^64 bound made
explicit where the Rust code can reject an overflowing literal.
-/

namespace Qonvert

/-- Characters of a Rust string; lines are modelled as lists of characters. -/
abbrev Str := List Char

/-- Shorthand for building a modelled Rust string from a Lean literal. -/
def str (s : String) : Str := s.data

/-- Whitespace as recognised by Rust's str::trim on the ASCII content these
streams carry (space, tab, line feed, carriage return). -/
def isWS (c : Char) : Bool := c = ' ' || c = '\t' || c = '\n' || c = '\r'

/-- Rust str::trim_start. -/
def ltrim (s : Str) : Str := s.dropWhile isWS

/-- Rust str::trim_end. -/
def rtrim (s : Str) : Str := (s.reverse.dropWhile isWS).reverse

/-- Rust str::trim: remove leading and trailing whitespace. -/
def trim (s : Str) : Str := rtrim (ltrim s)

/-- Rust str::split_once: split at the first occurrence of c, none when c
does not occur. -/
def splitOnce (c : Char) : Str → Option (Str × Str)
  | [] => none
  | a :: rest =>
    if a = c then some ([], rest)
    else
      match splitOnce c rest with
      | none => none
      | some (k, v) => some (a :: k, v)

/-- ASCII decimal digit test. -/
def isDigit (c : Char) : Bool := '0' ≤ c && c ≤ '9'

/-- Numeric value of an ASCII digit character. -/
def digitVal (c : Char) : Nat := c.toNat - '0'.toNat

/-- Value of a big-endian ASCII digit string. -/
def digitsVal (s : Str) : Nat := s.foldl (fun a c => a * 10 + digitVal c) 0

/-- Rust u64::from_str: an optional leading plus sign, then one or more
ASCII digits, and the value must fit in 64 bits. -/
def parseU64 (s : Str) : Option Nat :=
  let ds :=
    match s with
    | '+' :: rest => rest
    | _ => s
  if ds.isEmpty then none
  else if ds.all isDigit then
    if digitsVal ds < 2 ^ 64 then some (digitsVal ds) else none
  else none

/-! ## src/progress.rs -/

/-- FFmpegProgressState from src/progress.rs. -/
inductive FFmpegProgressState where
  | Continue : FFmpegProgressState
  | End : FFmpegProgressState
deriving DecidableEq, Repr

/-- Result of FFmpegProgressState::from_str. The catch-all branch of the
Rust match is the unimplemented macro, which panics; that branch is the
panicked constructor. -/
inductive FromStrOutcome where
  | ok (s : FFmpegProgressState)
  | panicked
deriving DecidableEq, Repr

/-- FFmpegProgressState::from_str (src/progress.rs lines 31-39). -/
def FFmpegProgressState.fromStr (s : Str) : FromStrOutcome :=
  if s = str "continue" then .ok .Continue
  else if s = str "end" then .ok .End
  else .panicked

/-- FFmpegProgress from src/progress.rs: one progress snapshot. -/
structure FFmpegProgress where
  frame : Nat
  progress : FFmpegProgressState
deriving DecidableEq, Repr

/-- The HashMap of String to String accumulation buffer, as a finite map:
insert is last-write-wins, clear restarts from the empty map. -/
def Buffer := Str → Option Str

/-- HashMap::new / HashMap::clear. -/
def Buffer.empty : Buffer := fun _ => none

/-- HashMap::insert (replaces an existing value for the key). -/
def Buffer.insert (b : Buffer) (k v : Str) : Buffer :=
  fun k' => if k' = k then some v else b k'

/-- How a run of progress::parse ends early. The error constructor models
Err(FFmpegProgressError::Parse(key)); intError models the ParseIntError
returned by frame.parse::<u64>(); panicked models the panic raised by the
unimplemented macro inside FFmpegProgressState::from_str — a panic, not a
recoverable error value. -/
inductive ParseAbort where
  | error (key : Str)
  | intError (value : Str)
  | panicked (value : Str)
deriving DecidableEq, Repr

/-- FFmpegProgress::try_from_parsed_progress (src/progress.rs lines 47-63):
the frame field is evaluated first (missing key, then numeric parse), then
the progress field (missing key, then from_str). -/
def FFmpegProgress.tryFromParsedProgress (b : Buffer) :
    Except ParseAbort FFmpegProgress :=
  match b (str "frame") with
  | none => .error (.error (str "frame"))
  | some fv =>
    match parseU64 fv with
    | none => .error (.intError fv)
    | some n =>
      match b (str "progress") with
      | none => .error (.error (str "progress"))
      | some pv =>
        match FFmpegProgressState.fromStr pv with
        | .panicked => .error (.panicked pv)
        | .ok st => .ok ⟨n, st⟩

/-- parse_key_value_pair (src/progress.rs lines 65-69): split at the first
equals sign and trim both sides. -/
def parseKeyValuePair (input : Str) : Option (Str × Str) :=
  (splitOnce '=' input).map (fun kv => (trim kv.1, trim kv.2))

/-- The observable result of one run of progress::parse: the snapshots
delivered to the observer, in delivery order, and how the loop ended
(none: the line source closed and parse returned Ok). -/
structure ParseRun where
  snapshots : List FFmpegProgress
  abort : Option ParseAbort
deriving DecidableEq, Repr

/-- The loop of progress::parse (src/progress.rs lines 71-96), from a given
buffer state: unparseable lines are skipped, each parsed pair is inserted,
and a line whose key is progress triggers one emission attempt; on success
the snapshot is delivered and the buffer cleared, on failure the whole
parse aborts (the Rust question mark operator). -/
def parseFrom (b : Buffer) : List Str → ParseRun
  | [] => ⟨[], none⟩
  | line :: rest =>
    match parseKeyValuePair line with
    | none => parseFrom b rest
    | some (k, v) =>
      if k = str "progress" then
        match FFmpegProgress.tryFromParsedProgress (b.insert k v) with
        | .error e => ⟨[], some e⟩
        | .ok snap =>
          ⟨snap :: (parseFrom Buffer.empty rest).snapshots,
            (parseFrom Buffer.empty rest).abort⟩
      else parseFrom (b.insert k v) rest

/-- progress::parse on a whole line stream, starting from the empty buffer. -/
def parse (lines : List Str) : ParseRun := parseFrom Buffer.empty lines

/-! ## src/lib.rs -/

/-- The stderr accumulation loop of execute_ffmpeg_encoding (src/lib.rs
lines 104-106): for each line, the accumulator becomes the whole string
so far, a line break, and the line — trimmed of leading and trailing
whitespace at every step. -/
def errorStringFold (lines : List Str) : Str :=
  lines.foldl (fun acc l => trim (acc ++ '\n' :: l)) []

/-- std::process::ExitStatus, abstracted to its success test. -/
structure ExitStatus where
  success : Bool
deriving DecidableEq, Repr

/-- The error value execute_ffmpeg_encoding can return: either the parser's
abort propagated by the question mark operator on progress::parse (a
protocol-level fault), or the FFmpegError built from a non-success exit
status and the accumulated stderr text (a process-level fault). -/
inductive SupervisorError where
  | protocol (e : ParseAbort)
  | ffmpeg (status : ExitStatus) (stderr : Str)
deriving DecidableEq, Repr

/-- execute_ffmpeg_encoding (src/lib.rs lines 76-119) after a successful
spawn, as a function of the data the subprocess produces: its stdout lines,
its stderr lines, and its exit status. The first component is the list of
observer invocations (they happen inside progress::parse); the second is
the function's returned result. A parse abort returns at line 102 before
the stderr loop or the status await are reached, so the result then
depends on neither; otherwise stderr is accumulated, the status awaited,
and a non-success status yields the FFmpegError. -/
def executeFFmpegEncoding (stdoutLines stderrLines : List Str)
    (status : ExitStatus) : List FFmpegProgress × Except SupervisorError Unit :=
  ((parse stdoutLines).snapshots,
    match (parse stdoutLines).abort with
    | some e => .error (.protocol e)
    | none =>
      if status.success then .ok ()
      else .error (.ffmpeg status (errorStringFold stderrLines)))

/-- get_frame_count_from_file_path (src/lib.rs lines 121-143), as a
function of the captured standard output of the one-shot ffprobe query:
the bytes are decoded, trimmed, and parsed as a u64; empty or non-numeric
output is an error. The subprocess invocation itself is outside the
embedding, so the query's output is the parameter. -/
def getFrameCountFromOutput (stdout : Str) : Option Nat :=
  parseU64 (trim stdout)

/-! ## src/main.rs -/

/-- One line printed by main for a finished job (src/main.rs lines
184-206): on success the output path; on failure the input path, carrying
the error only when the verbose flag is set. -/
inductive Report where
  | converted (outputPath : Str)
  | failedVerbose (inputPath : Str) (e : SupervisorError)
  | failed (inputPath : Str)
deriving DecidableEq, Repr

/-- The match on encoding_result in main's job closure (src/main.rs lines
184-206). -/
def reportFor (verbose : Bool) (inputPath outputPath : Str)
    (r : Except SupervisorError Unit) : Report :=
  match r with
  | .ok _ => .converted outputPath
  | .error e => if verbose then .failedVerbose inputPath e else .failed inputPath

/-- The job loop of main (src/main.rs lines 173-208): one supervised
encoding per (input, output) pair, every pair yielding exactly one report;
each job's error is consumed by the local match and never propagated. run
gives each job's encoding result (the Supervisor's result for that job). -/
def orchestrate (verbose : Bool) (jobs : List (Str × Str))
    (run : Str → Str → Except SupervisorError Unit) : List Report :=
  jobs.map (fun j => reportFor verbose j.1 j.2 (run j.1 j.2))

/-- The tail of main after path resolution succeeded (src/main.rs lines
173-212): all jobs are awaited by for_each_concurrent, then main returns
Ok(()) whatever the individual job outcomes were. -/
def mainAfterResolution (verbose : Bool) (jobs : List (Str × Str))
    (run : Str → Str → Except SupervisorError Unit) :
    List Report × Except Unit Unit :=
  (orchestrate verbose jobs run, .ok ())

/-- Terminal outcome of one orchestrated job in the frame-counting
orchestrator. -/
inductive JobOutcome where
  | success
  | frameCountFailure
  | encodingFailure (e : SupervisorError)
deriving DecidableEq, Repr

/-- Modelled from the spec: the per-job sequence of the Batch Orchestrator
(spec section 4.3). The revision of main.rs under src is an older one that
never calls get_frame_count_from_file_path (and its call to
execute_ffmpeg_encoding predates the observer parameter), so the
orchestrator revision that performs the frame-count query is missing from
src. Per the spec, each job first resolves its total frame count via the
one-shot query (embedded above from src/lib.rs); a failure of that query
is fatal to that job alone and its encoding never runs; otherwise the
job's encoding result decides its outcome. probeOut gives each input's
ffprobe output, run each job's encoding result. -/
def orchestrateWithFrameCount (jobs : List (Str × Str))
    (probeOut : Str → Str) (run : Str → Str → Except SupervisorError Unit) :
    List ((Str × Str) × JobOutcome) :=
  jobs.map (fun j =>
    match getFrameCountFromOutput (probeOut j.1) with
    | none => (j, .frameCountFailure)
    | some _ =>
      match run j.1 j.2 with
      | .ok _ => (j, .success)
      | .error e => (j, .encodingFailure e))

/-! ## src/path.rs

Rust paths are modelled by their parsed components plus an absoluteness
flag; a normal component holds a file or directory name. -/

/-- One path component, as in std::path::Component (the root itself is the
absolute flag of RPath). -/
inductive Component where
  | curDir
  | parentDir
  | normal (s : Str)
deriving DecidableEq, Repr

/-- A Rust path: whether it is absolute, and its components in order. -/
structure RPath where
  absolute : Bool
  components : List Component
deriving DecidableEq, Repr

/-- Path::join (PathBuf::push): an absolute argument replaces the whole
path, otherwise its components are appended. -/
def RPath.join (base p : RPath) : RPath :=
  if p.absolute then p else ⟨base.absolute, base.components ++ p.components⟩

/-- Path::file_stem on a file name: the part before the last dot, except
that a name whose only dot is a leading one is its own stem. -/
def stemOf (s : Str) : Str :=
  match splitOnce '.' s.reverse with
  | none => s
  | some (_, revStem) => if revStem = [] then s else revStem.reverse

/-- Path::with_extension on the component list: replace the file name
(a trailing normal component) by its stem plus the new extension; a path
without a file name is returned unchanged. -/
def setExtension (ext : Str) : List Component → List Component
  | [] => []
  | [.normal s] => [.normal (stemOf s ++ '.' :: ext)]
  | [c] => [c]
  | c :: rest => c :: setExtension ext rest

/-- Path::with_extension. -/
def RPath.withExtension (p : RPath) (ext : Str) : RPath :=
  ⟨p.absolute, setExtension ext p.components⟩

/-- One step of the clean_path (path-clean) algorithm: a dot component is
dropped; a parent-dir component consumes a preceding normal component, is
dropped at the root of an absolute path, and is kept otherwise; any other
component is pushed. -/
def cleanStep (absolute : Bool) (out : List Component) : Component → List Component
  | .curDir => out
  | .parentDir =>
    match out.getLast? with
    | some (.normal _) => out.dropLast
    | some .parentDir => out ++ [.parentDir]
    | some .curDir => out ++ [.parentDir]
    | none => if absolute then out else out ++ [.parentDir]
  | .normal s => out ++ [.normal s]

/-- The clean_path fold over all components. -/
def cleanComponents (absolute : Bool) (cs : List Component) : List Component :=
  cs.foldl (cleanStep absolute) []

/-- Clean from the clean_path crate: apply the fold and render an emptied
relative path as a single dot. -/
def RPath.clean (p : RPath) : RPath :=
  ⟨p.absolute,
    if cleanComponents p.absolute p.components = [] && !p.absolute then [.curDir]
    else cleanComponents p.absolute p.components⟩

/-- The error get_output_file_paths returns for a missing directory. -/
inductive PathError where
  | invalidDirectory (path : RPath)
deriving DecidableEq, Repr

/-- The per-input mapping inside get_output_file_paths (src/path.rs lines
55-63): join the output directory with the input path re-extensioned,
then clean. -/
def outputFilePathFor (outputDirectory inputPath : RPath) (ext : Str) : RPath :=
  (outputDirectory.join (inputPath.withExtension ext)).clean

/-- get_output_file_paths (src/path.rs lines 40-66). The is_dir test is a
filesystem query; its result is the dirIsDir parameter. -/
def get_output_file_paths (dirIsDir : Bool) (outputDirectory : RPath)
    (inputFilePaths : List RPath) (ext : Str) : Except PathError (List RPath) :=
  if !dirIsDir then .error (.invalidDirectory outputDirectory)
  else .ok (inputFilePaths.map (fun p => outputFilePathFor outputDirectory p ext))

/-! ## OS pipe model for the stream-draining order of execute_ffmpeg_encoding

The subprocess's stdout and stderr are OS pipes of bounded capacity: a
write blocks while the buffer is full, a read blocks while it is empty,
and a reader sees end-of-stream once the writer has exited and the buffer
is drained. execute_ffmpeg_encoding reads in a fixed order: progress::parse
consumes stdout to end-of-stream (src/lib.rs line 102) before the stderr
loop runs (lines 104-106); only the exit wait runs concurrently. The model
below has one state transition per such blocking operation. -/

/-- The two output channels of the subprocess. -/
inductive Chan where
  | out
  | err
deriving DecidableEq, Repr

/-- Where the supervisor is in its fixed read sequence. -/
inductive Phase where
  | drainingOut
  | drainingErr
  | done
deriving DecidableEq, Repr

/-- A state of one supervised run: the subprocess's remaining writes (it
performs them in order and exits, closing both channels, when none
remain), the number of unread lines in each pipe buffer, and the
supervisor's phase. -/
structure PipeState where
  writes : List Chan
  outBuf : Nat
  errBuf : Nat
  phase : Phase
deriving DecidableEq, Repr

/-- The enabled transitions under pipe capacity cap: the subprocess writes
its next line if that buffer has room; the supervisor in the stdout phase
reads a buffered stdout line, or sees end-of-stream once the subprocess
has exited and the buffer is empty, and moves to the stderr phase; then
likewise for stderr, after which it is done. -/
inductive PipeStep (cap : Nat) : PipeState → PipeState → Prop where
  | childWriteOut (w : List Chan) (o e : Nat) (ph : Phase) (h : o < cap) :
      PipeStep cap ⟨Chan.out :: w, o, e, ph⟩ ⟨w, o + 1, e, ph⟩
  | childWriteErr (w : List Chan) (o e : Nat) (ph : Phase) (h : e < cap) :
      PipeStep cap ⟨Chan.err :: w, o, e, ph⟩ ⟨w, o, e + 1, ph⟩
  | readOut (w : List Chan) (o e : Nat) :
      PipeStep cap ⟨w, o + 1, e, .drainingOut⟩ ⟨w, o, e, .drainingOut⟩
  | eofOut (e : Nat) :
      PipeStep cap ⟨[], 0, e, .drainingOut⟩ ⟨[], 0, e, .drainingErr⟩
  | readErr (w : List Chan) (o e : Nat) :
      PipeStep cap ⟨w, o, e + 1, .drainingErr⟩ ⟨w, o, e, .drainingErr⟩
  | eofErr (o : Nat) :
      PipeStep cap ⟨[], o, 0, .drainingErr⟩ ⟨[], o, 0, .done⟩

/-! ## Spec-side definitions, for comparison with the embedded code -/

/-- Join lines with single line breaks. -/
def joinNL : List Str → Str
  | [] => []
  | [l] => l
  | l :: l' :: rest => l ++ '\n' :: joinNL (l' :: rest)

/-- The diagnostic text as claim C5 describes it: the concatenation of all
standard-error lines (joined by the line breaks that separated them),
trimmed of a single trailing line break — that is, exactly the lines
interposed with line breaks, with no other transformation. Written from
the claim's words, to be compared with errorStringFold. -/
def specDiagnostic (lines : List Str) : Str :=
  joinNL lines

/-- Each line trimmed of trailing whitespace, with the lines that are left
empty by that (whitespace-only lines) dropped. -/
def cleanLines (lines : List Str) : List Str :=
  (lines.map rtrim).filter (fun l => !l.isEmpty)

/-- Trim leading whitespace from the first line of a list. -/
def ltrimHead : List Str → List Str
  | [] => []
  | l :: rest => ltrim l :: rest

/-- The diagnostic text execute_ffmpeg_encoding actually accumulates, in
closed form: each standard-error line trimmed of trailing whitespace,
whitespace-only lines dropped, the first remaining line also trimmed of
leading whitespace, and the results joined by single line breaks. -/
def cleanJoin (lines : List Str) : Str :=
  joinNL (ltrimHead (cleanLines lines))

/-- Decimal digits of a positive number, most significant first; fuel
bounds the recursion and any fuel of at least the digit count is enough. -/
def natToDigitsAux : Nat → Nat → Str
  | 0, _ => []
  | fuel + 1, n =>
    if n = 0 then [] else natToDigitsAux fuel (n / 10) ++ [Nat.digitChar (n % 10)]

/-- Decimal rendering of a frame count (the digit string Rust's formatter
prints for a u64). -/
def natToDigits (n : Nat) : Str :=
  if n = 0 then ['0'] else natToDigitsAux n n

/-- The wire value of a phase tag. -/
def phaseValue : FFmpegProgressState → Str
  | .Continue => str "continue"
  | .End => str "end"

/-- The well-formed synthetic stream of claim C4: for each (frame, phase)
pair in order, a frame line followed by a progress line. -/
def pairLines (ps : List (Nat × FFmpegProgressState)) : List Str :=
  ps.flatMap (fun p => [str "frame=" ++ natToDigits p.1, str "progress=" ++ phaseValue p.2])

/-! ## Supporting lemmas about trimming -/

theorem dropWhile_eq_self_of_not (p : Char → Bool) (s : Str)
    (h : ∀ c ∈ s, p c = false) : s.dropWhile p = s := by
  cases s with
  | nil => rfl
  | cons a t => simp [List.dropWhile_cons, h a (List.mem_cons_self a t)]

theorem dropWhile_idem (p : Char → Bool) (s : Str) :
    (s.dropWhile p).dropWhile p = s.dropWhile p := by
  induction s with
  | nil => rfl
  | cons a t ih =>
    by_cases h : p a = true
    · simpa [List.dropWhile_cons, h] using ih
    · simp [List.dropWhile_cons, h]

theorem ltrim_eq_self (s : Str) (h : ∀ c ∈ s, isWS c = false) : ltrim s = s :=
  dropWhile_eq_self_of_not _ _ h

theorem rtrim_eq_self (s : Str) (h : ∀ c ∈ s, isWS c = false) : rtrim s = s := by
  unfold rtrim
  rw [dropWhile_eq_self_of_not _ _ (fun c hc => h c (List.mem_reverse.mp hc)),
    List.reverse_reverse]

theorem trim_eq_self (s : Str) (h : ∀ c ∈ s, isWS c = false) : trim s = s := by
  unfold trim
  rw [ltrim_eq_self s h, rtrim_eq_self s h]

theorem rtrim_reverse (s : Str) : (rtrim s).reverse = s.reverse.dropWhile isWS := by
  unfold rtrim
  rw [List.reverse_reverse]

theorem reverse_dropWhile_of_rtrim_eq (s : Str) (h : rtrim s = s) :
    s.reverse.dropWhile isWS = s.reverse := by
  have h2 := congrArg List.reverse h
  rwa [rtrim_reverse] at h2

theorem ltrim_idem (s : Str) : ltrim (ltrim s) = ltrim s :=
  dropWhile_idem _ _

theorem rtrim_idem (s : Str) : rtrim (rtrim s) = rtrim s := by
  unfold rtrim
  rw [List.reverse_reverse, dropWhile_idem]

theorem ltrim_cons (c : Char) (t : Str) :
    ltrim (c :: t) = if isWS c then ltrim t else c :: t :=
  List.dropWhile_cons

theorem ltrim_append_eq_self (acc y : Str) (hne : acc ≠ []) (hl : ltrim acc = acc) :
    ltrim (acc ++ y) = acc ++ y := by
  cases acc with
  | nil => exact absurd rfl hne
  | cons a t =>
    have ha : ¬ isWS a = true := List.dropWhile_eq_self_iff.mp hl (by simp)
    rw [List.cons_append]
    unfold ltrim
    rw [List.dropWhile_cons, if_neg ha]

theorem ltrim_nil : ltrim [] = [] := rfl

theorem rtrim_nil : rtrim [] = [] := rfl

theorem rtrim_of_reverse_dropWhile (s x : Str)
    (h : s.reverse.dropWhile isWS = x.reverse) : rtrim s = x := by
  have h2 : (rtrim s).reverse = x.reverse := by rwa [rtrim_reverse]
  have h3 := congrArg List.reverse h2
  rwa [List.reverse_reverse, List.reverse_reverse] at h3

theorem rtrim_append_newline (acc l : Str) (hr : rtrim acc = acc) :
    rtrim (acc ++ '\n' :: l) =
      if rtrim l = [] then acc else acc ++ '\n' :: rtrim l := by
  have hsplit : (acc ++ '\n' :: l).reverse.dropWhile isWS =
      if (l.reverse.dropWhile isWS).isEmpty then ('\n' :: acc.reverse).dropWhile isWS
      else l.reverse.dropWhile isWS ++ '\n' :: acc.reverse := by
    rw [show (acc ++ '\n' :: l).reverse = l.reverse ++ '\n' :: acc.reverse by simp,
      List.dropWhile_append]
  by_cases hc : rtrim l = []
  · have hc' : l.reverse.dropWhile isWS = [] := by
      have h2 := congrArg List.reverse hc
      rwa [rtrim_reverse] at h2
    rw [if_pos hc]
    apply rtrim_of_reverse_dropWhile
    rw [hsplit, hc', if_pos List.isEmpty_nil, List.dropWhile_cons,
      if_pos (by decide : isWS '\n' = true), reverse_dropWhile_of_rtrim_eq acc hr]
  · have hc' : l.reverse.dropWhile isWS ≠ [] := by
      intro h
      exact hc (rtrim_of_reverse_dropWhile l [] (by simpa using h))
    have hval : (l.reverse.dropWhile isWS).isEmpty = false := by
      simp [List.isEmpty_iff, hc']
    rw [if_neg hc]
    apply rtrim_of_reverse_dropWhile
    rw [hsplit, hval, if_neg (by simp), ← rtrim_reverse]
    simp

theorem rtrim_cons (c : Char) (t : Str) :
    rtrim (c :: t) =
      if rtrim t = [] then (if isWS c then [] else [c]) else c :: rtrim t := by
  have hsplit : (c :: t).reverse.dropWhile isWS =
      if (t.reverse.dropWhile isWS).isEmpty then [c].dropWhile isWS
      else t.reverse.dropWhile isWS ++ [c] := by
    rw [show (c :: t).reverse = t.reverse ++ [c] by simp, List.dropWhile_append]
  by_cases ht : rtrim t = []
  · have ht' : t.reverse.dropWhile isWS = [] := by
      have h2 := congrArg List.reverse ht
      rwa [rtrim_reverse] at h2
    rw [if_pos ht]
    by_cases hc : isWS c = true
    · rw [if_pos hc]
      apply rtrim_of_reverse_dropWhile
      rw [hsplit, ht', if_pos List.isEmpty_nil]
      simp [List.dropWhile_cons, hc]
    · rw [if_neg hc]
      apply rtrim_of_reverse_dropWhile
      rw [hsplit, ht', if_pos List.isEmpty_nil]
      simp [List.dropWhile_cons, hc]
  · have ht' : t.reverse.dropWhile isWS ≠ [] := by
      intro h
      exact ht (rtrim_of_reverse_dropWhile t [] (by simpa using h))
    have hval : (t.reverse.dropWhile isWS).isEmpty = false := by
      simp [List.isEmpty_iff, ht']
    rw [if_neg ht]
    apply rtrim_of_reverse_dropWhile
    rw [hsplit, hval, if_neg (by simp), ← rtrim_reverse]
    simp

theorem ltrim_rtrim_comm (s : Str) : rtrim (ltrim s) = ltrim (rtrim s) := by
  induction s with
  | nil => rfl
  | cons c t ih =>
    by_cases hc : isWS c = true
    · by_cases ht : rtrim t = []
      · simp [ltrim_cons, hc, rtrim_cons, ht, ih, ltrim_nil, rtrim_nil]
      · simp [ltrim_cons, hc, rtrim_cons, ht, ih]
    · by_cases ht : rtrim t = []
      · simp [ltrim_cons, hc, rtrim_cons, ht, ltrim_nil, ltrim_cons]
      · simp [ltrim_cons, hc, rtrim_cons, ht, ltrim_cons]

theorem rtrim_eq_nil_iff (s : Str) : rtrim s = [] ↔ ∀ c ∈ s, isWS c = true := by
  unfold rtrim
  rw [List.reverse_eq_nil_iff, List.dropWhile_eq_nil_iff]
  constructor
  · intro h c hc
    exact h c (List.mem_reverse.mpr hc)
  · intro h c hc
    exact h c (List.mem_reverse.mp hc)

theorem ltrim_eq_nil_iff (s : Str) : ltrim s = [] ↔ ∀ c ∈ s, isWS c = true := by
  unfold ltrim
  rw [List.dropWhile_eq_nil_iff]

theorem trim_eq_nil_iff (s : Str) : trim s = [] ↔ rtrim s = [] := by
  rw [rtrim_eq_nil_iff]
  constructor
  · intro h c hc
    unfold trim at h
    rw [rtrim_eq_nil_iff] at h
    rw [← List.takeWhile_append_dropWhile (p := isWS) (l := s)] at hc
    rcases List.mem_append.mp hc with h1 | h2
    · exact List.mem_takeWhile_imp h1
    · exact h c h2
  · intro h
    have h0 : ltrim s = [] := (ltrim_eq_nil_iff s).mpr h
    unfold trim
    rw [h0]
    rfl

theorem cleanLines_cons_of_ws (l : Str) (rest : List Str) (h : rtrim l = []) :
    cleanLines (l :: rest) = cleanLines rest := by
  simp [cleanLines, h]

theorem cleanLines_cons_of_not_ws (l : Str) (rest : List Str) (h : rtrim l ≠ []) :
    cleanLines (l :: rest) = rtrim l :: cleanLines rest := by
  simp [cleanLines, List.isEmpty_iff, h]

theorem errorStringFold_go (lines : List Str) :
    ∀ acc : Str, acc ≠ [] → ltrim acc = acc → rtrim acc = acc →
      List.foldl (fun a l => trim (a ++ '\n' :: l)) acc lines =
        if cleanLines lines = [] then acc
        else acc ++ '\n' :: joinNL (cleanLines lines) := by
  induction lines with
  | nil =>
    intro acc _ _ _
    simp [cleanLines]
  | cons l rest ih =>
    intro acc hne hl hr
    have step : trim (acc ++ '\n' :: l) =
        if rtrim l = [] then acc else acc ++ '\n' :: rtrim l := by
      unfold trim
      rw [ltrim_append_eq_self acc _ hne hl, rtrim_append_newline acc l hr]
    rw [List.foldl_cons, step]
    by_cases hrl : rtrim l = []
    · rw [if_pos hrl, cleanLines_cons_of_ws l rest hrl]
      exact ih acc hne hl hr
    · rw [if_neg hrl, cleanLines_cons_of_not_ws l rest hrl]
      have hne' : acc ++ '\n' :: rtrim l ≠ [] := by simp
      have hl' : ltrim (acc ++ '\n' :: rtrim l) = acc ++ '\n' :: rtrim l :=
        ltrim_append_eq_self acc _ hne hl
      have hr' : rtrim (acc ++ '\n' :: rtrim l) = acc ++ '\n' :: rtrim l := by
        rw [rtrim_append_newline acc (rtrim l) hr, rtrim_idem, if_neg hrl]
      rw [ih _ hne' hl' hr']
      by_cases hrest : cleanLines rest = []
      · rw [if_pos hrest, if_neg (by simp), hrest, joinNL]
      · rw [if_neg hrest, if_neg (by simp)]
        cases hc : cleanLines rest with
        | nil => exact absurd hc hrest
        | cons x xs => simp [joinNL]

theorem errorStringFold_eq_cleanJoin (lines : List Str) :
    errorStringFold lines = cleanJoin lines := by
  induction lines with
  | nil => rfl
  | cons l rest ih =>
    unfold errorStringFold cleanJoin at *
    rw [List.foldl_cons]
    have h0 : trim (([] : Str) ++ '\n' :: l) = trim l := by
      unfold trim
      rw [List.nil_append, ltrim_cons, if_pos (by decide : isWS '\n' = true)]
    rw [h0]
    by_cases hrl : rtrim l = []
    · rw [(trim_eq_nil_iff l).mpr hrl, cleanLines_cons_of_ws l rest hrl]
      exact ih
    · have htl : trim l ≠ [] := fun h => hrl ((trim_eq_nil_iff l).mp h)
      have hl' : ltrim (trim l) = trim l := by
        rw [show trim l = ltrim (rtrim l) from ltrim_rtrim_comm l, ltrim_idem]
      have hr' : rtrim (trim l) = trim l := by
        unfold trim
        rw [rtrim_idem]
      rw [errorStringFold_go rest (trim l) htl hl' hr',
        cleanLines_cons_of_not_ws l rest hrl]
      have hhead : ltrimHead (rtrim l :: cleanLines rest) = trim l :: cleanLines rest := by
        rw [ltrimHead, ← ltrim_rtrim_comm]
        rfl
      rw [hhead]
      by_cases hrest : cleanLines rest = []
      · rw [if_pos hrest, hrest, joinNL]
      · rw [if_neg hrest]
        cases hc : cleanLines rest with
        | nil => exact absurd hc hrest
        | cons x xs => rw [joinNL]

/-! ## Supporting lemmas about numerals and key=value lines -/

theorem digitChar_facts (d : Nat) (h : d < 10) :
    isDigit (Nat.digitChar d) = true ∧ isWS (Nat.digitChar d) = false ∧
      Nat.digitChar d ≠ '+' ∧ digitVal (Nat.digitChar d) = d := by
  interval_cases d <;> exact ⟨by decide, by decide, by decide, by decide⟩

theorem natToDigitsAux_all_digit :
    ∀ fuel n : Nat, ∀ c ∈ natToDigitsAux fuel n, isDigit c = true := by
  intro fuel
  induction fuel with
  | zero => intro n c hc; cases hc
  | succ f ih =>
    intro n c hc
    unfold natToDigitsAux at hc
    by_cases h : n = 0
    · rw [if_pos h] at hc
      cases hc
    · rw [if_neg h] at hc
      rcases List.mem_append.mp hc with h1 | h1
      · exact ih (n / 10) c h1
      · have hc0 : c = Nat.digitChar (n % 10) := by simpa using h1
        subst hc0
        exact (digitChar_facts (n % 10) (Nat.mod_lt n (by norm_num))).1

theorem natToDigits_all_digit (n : Nat) : ∀ c ∈ natToDigits n, isDigit c = true := by
  intro c hc
  unfold natToDigits at hc
  by_cases h : n = 0
  · rw [if_pos h] at hc
    have hc0 : c = '0' := by simpa using hc
    subst hc0
    decide
  · rw [if_neg h] at hc
    exact natToDigitsAux_all_digit n n c hc

theorem natToDigits_ne_nil (n : Nat) : natToDigits n ≠ [] := by
  unfold natToDigits
  by_cases h : n = 0
  · rw [if_pos h]
    exact List.cons_ne_nil _ _
  · rw [if_neg h]
    cases n with
    | zero => exact absurd rfl h
    | succ m =>
      unfold natToDigitsAux
      rw [if_neg h]
      simp

theorem digitsVal_append_one (s : Str) (c : Char) :
    digitsVal (s ++ [c]) = digitsVal s * 10 + digitVal c := by
  unfold digitsVal
  rw [List.foldl_append, List.foldl_cons, List.foldl_nil]

theorem digitsVal_natToDigitsAux :
    ∀ fuel n : Nat, n ≤ fuel → digitsVal (natToDigitsAux fuel n) = n := by
  intro fuel
  induction fuel with
  | zero =>
    intro n hn
    interval_cases n
    rfl
  | succ f ih =>
    intro n hn
    unfold natToDigitsAux
    by_cases h : n = 0
    · rw [if_pos h, h]
      rfl
    · rw [if_neg h, digitsVal_append_one,
        ih (n / 10) (by omega),
        (digitChar_facts (n % 10) (Nat.mod_lt n (by norm_num))).2.2.2]
      omega

theorem digitsVal_natToDigits (n : Nat) : digitsVal (natToDigits n) = n := by
  by_cases h : n = 0
  · subst h
    decide
  · unfold natToDigits
    rw [if_neg h]
    exact digitsVal_natToDigitsAux n n le_rfl

theorem parseU64_of_digits (s : Str) (hne : s ≠ []) (hd : ∀ c ∈ s, isDigit c = true)
    (hb : digitsVal s < 2 ^ 64) : parseU64 s = some (digitsVal s) := by
  have hall : s.all isDigit = true := List.all_eq_true.mpr hd
  unfold parseU64
  split
  · exact absurd (hd '+' (List.mem_cons_self _ _)) (by decide)
  · rw [if_neg (by simp [List.isEmpty_iff, hne]), if_pos hall, if_pos hb]

theorem parseU64_natToDigits (n : Nat) (h : n < 2 ^ 64) :
    parseU64 (natToDigits n) = some n := by
  rw [parseU64_of_digits _ (natToDigits_ne_nil n) (natToDigits_all_digit n)
    (by rwa [digitsVal_natToDigits]), digitsVal_natToDigits]

theorem isWS_of_isDigit (c : Char) (h : isDigit c = true) : isWS c = false := by
  cases hw : isWS c
  · rfl
  · unfold isWS at hw
    simp only [Bool.or_eq_true, decide_eq_true_eq, or_assoc] at hw
    rcases hw with h1 | h1 | h1 | h1 <;> subst h1 <;> exact absurd h (by decide)

theorem trim_of_all_digit (s : Str) (h : ∀ c ∈ s, isDigit c = true) : trim s = s :=
  trim_eq_self s (fun c hc => isWS_of_isDigit c (h c hc))

theorem splitOnce_append (c : Char) (k v : Str) (h : ∀ a ∈ k, a ≠ c) :
    splitOnce c (k ++ c :: v) = some (k, v) := by
  induction k with
  | nil => simp [splitOnce]
  | cons a t ih =>
    rw [List.cons_append]
    unfold splitOnce
    rw [if_neg (h a (List.mem_cons_self a t)),
      ih (fun x hx => h x (List.mem_cons_of_mem _ hx))]

theorem parseKeyValuePair_of (k v : Str) (hk : ∀ a ∈ k, a ≠ '=') :
    parseKeyValuePair (k ++ '=' :: v) = some (trim k, trim v) := by
  unfold parseKeyValuePair
  rw [splitOnce_append '=' k v hk]
  rfl

theorem parseKeyValuePair_frame (v : Str) :
    parseKeyValuePair (str "frame=" ++ v) = some (str "frame", trim v) := by
  have h : str "frame=" ++ v = str "frame" ++ '=' :: v := rfl
  rw [h, parseKeyValuePair_of _ _ (by decide),
    show trim (str "frame") = str "frame" by decide]

theorem parseKeyValuePair_progress (v : Str) :
    parseKeyValuePair (str "progress=" ++ v) = some (str "progress", trim v) := by
  have h : str "progress=" ++ v = str "progress" ++ '=' :: v := rfl
  rw [h, parseKeyValuePair_of _ _ (by decide),
    show trim (str "progress") = str "progress" by decide]

/-! ## Supporting lemmas about the parse loop -/

theorem buffer_two_keys_frame (fv pv : Str) :
    ((Buffer.empty.insert (str "frame") fv).insert (str "progress") pv)
      (str "frame") = some fv := by
  show (if str "frame" = str "progress" then some pv
    else if str "frame" = str "frame" then some fv else Buffer.empty (str "frame")) = some fv
  rw [if_neg (by decide), if_pos rfl]

theorem buffer_two_keys_progress (fv pv : Str) :
    ((Buffer.empty.insert (str "frame") fv).insert (str "progress") pv)
      (str "progress") = some pv := by
  show (if str "progress" = str "progress" then some pv
    else if str "progress" = str "frame" then some fv
    else Buffer.empty (str "progress")) = some pv
  rw [if_pos rfl]

theorem tryFrom_two_keys (fv pv : Str) :
    FFmpegProgress.tryFromParsedProgress
        ((Buffer.empty.insert (str "frame") fv).insert (str "progress") pv) =
      match parseU64 fv with
      | none => .error (.intError fv)
      | some n =>
        match FFmpegProgressState.fromStr pv with
        | .panicked => .error (.panicked pv)
        | .ok st => .ok ⟨n, st⟩ := by
  unfold FFmpegProgress.tryFromParsedProgress
  rw [buffer_two_keys_frame, buffer_two_keys_progress]

theorem parseFrom_cons_skip (b : Buffer) (line : Str) (rest : List Str)
    (h : parseKeyValuePair line = none) :
    parseFrom b (line :: rest) = parseFrom b rest := by
  conv_lhs => rw [parseFrom]
  rw [h]

theorem parseFrom_cons_insert (b : Buffer) (line : Str) (rest : List Str) (k v : Str)
    (h : parseKeyValuePair line = some (k, v)) (hk : k ≠ str "progress") :
    parseFrom b (line :: rest) = parseFrom (b.insert k v) rest := by
  conv_lhs => rw [parseFrom]
  rw [h]
  show (if k = str "progress" then
      match FFmpegProgress.tryFromParsedProgress (b.insert k v) with
      | .error e => (⟨[], some e⟩ : ParseRun)
      | .ok snap =>
        ⟨snap :: (parseFrom Buffer.empty rest).snapshots,
          (parseFrom Buffer.empty rest).abort⟩
    else parseFrom (b.insert k v) rest) = parseFrom (b.insert k v) rest
  exact if_neg hk

theorem parseFrom_cons_progress_ok (b : Buffer) (line : Str) (rest : List Str)
    (v : Str) (snap : FFmpegProgress)
    (h : parseKeyValuePair line = some (str "progress", v))
    (he : FFmpegProgress.tryFromParsedProgress (b.insert (str "progress") v) = .ok snap) :
    parseFrom b (line :: rest) =
      ⟨snap :: (parseFrom Buffer.empty rest).snapshots,
        (parseFrom Buffer.empty rest).abort⟩ := by
  conv_lhs => rw [parseFrom]
  rw [h]
  show (if str "progress" = str "progress" then
      match FFmpegProgress.tryFromParsedProgress (b.insert (str "progress") v) with
      | .error e => (⟨[], some e⟩ : ParseRun)
      | .ok snap =>
        ⟨snap :: (parseFrom Buffer.empty rest).snapshots,
          (parseFrom Buffer.empty rest).abort⟩
    else parseFrom (b.insert (str "progress") v) rest) = _
  rw [if_pos rfl, he]

theorem parseFrom_cons_progress_err (b : Buffer) (line : Str) (rest : List Str)
    (v : Str) (e : ParseAbort)
    (h : parseKeyValuePair line = some (str "progress", v))
    (he : FFmpegProgress.tryFromParsedProgress (b.insert (str "progress") v) = .error e) :
    parseFrom b (line :: rest) = ⟨[], some e⟩ := by
  conv_lhs => rw [parseFrom]
  rw [h]
  show (if str "progress" = str "progress" then
      match FFmpegProgress.tryFromParsedProgress (b.insert (str "progress") v) with
      | .error e => (⟨[], some e⟩ : ParseRun)
      | .ok snap =>
        ⟨snap :: (parseFrom Buffer.empty rest).snapshots,
          (parseFrom Buffer.empty rest).abort⟩
    else parseFrom (b.insert (str "progress") v) rest) = _
  rw [if_pos rfl, he]

theorem tryFrom_frame_progress (n : Nat) (ph : FFmpegProgressState) (hn : n < 2 ^ 64) :
    FFmpegProgress.tryFromParsedProgress
        ((Buffer.empty.insert (str "frame") (natToDigits n)).insert
          (str "progress") (phaseValue ph)) = .ok ⟨n, ph⟩ := by
  rw [tryFrom_two_keys, parseU64_natToDigits n hn]
  cases ph <;> rfl

theorem parseFrom_pairLines : ∀ ps : List (Nat × FFmpegProgressState),
    (∀ p ∈ ps, p.1 < 2 ^ 64) →
    parseFrom Buffer.empty (pairLines ps) =
      ⟨ps.map (fun p => ⟨p.1, p.2⟩), none⟩ := by
  intro ps
  induction ps with
  | nil => intro _; rfl
  | cons p rest ih =>
    intro h
    obtain ⟨n, ph⟩ := p
    have hn : n < 2 ^ 64 := h ⟨n, ph⟩ (List.mem_cons_self _ _)
    have hframe : parseKeyValuePair (str "frame=" ++ natToDigits n) =
        some (str "frame", natToDigits n) := by
      rw [parseKeyValuePair_frame, trim_of_all_digit _ (natToDigits_all_digit n)]
    have hprog : parseKeyValuePair (str "progress=" ++ phaseValue ph) =
        some (str "progress", phaseValue ph) := by
      rw [parseKeyValuePair_progress]
      cases ph <;> decide
    have hstream : pairLines (⟨n, ph⟩ :: rest) =
        (str "frame=" ++ natToDigits n) ::
          (str "progress=" ++ phaseValue ph) :: pairLines rest := rfl
    rw [hstream, parseFrom_cons_insert _ _ _ _ _ hframe (by decide),
      parseFrom_cons_progress_ok _ _ _ _ ⟨n, ph⟩ hprog
        (tryFrom_frame_progress n ph hn),
      ih (fun q hq => h q (List.mem_cons_of_mem _ hq))]
    rfl

/-! ## Supporting lemmas about the supervisor and paths -/

theorem executeFFmpegEncoding_result_of_ok (stdoutLines stderrLines : List Str)
    (status : ExitStatus) (h : (parse stdoutLines).abort = none) :
    (executeFFmpegEncoding stdoutLines stderrLines status).2 =
      if status.success then .ok ()
      else .error (.ffmpeg status (errorStringFold stderrLines)) := by
  show (match (parse stdoutLines).abort with
    | some e => Except.error (SupervisorError.protocol e)
    | none =>
      if status.success then Except.ok ()
      else Except.error (.ffmpeg status (errorStringFold stderrLines))) = _
  rw [h]

theorem executeFFmpegEncoding_result_of_abort (stdoutLines stderrLines : List Str)
    (status : ExitStatus) (e : ParseAbort) (h : (parse stdoutLines).abort = some e) :
    (executeFFmpegEncoding stdoutLines stderrLines status).2 =
      .error (.protocol e) := by
  show (match (parse stdoutLines).abort with
    | some e => Except.error (SupervisorError.protocol e)
    | none =>
      if status.success then Except.ok ()
      else Except.error (.ffmpeg status (errorStringFold stderrLines))) = _
  rw [h]

theorem cleanComponents_all_normal (absolute : Bool) :
    ∀ cs acc : List Component, (∀ c ∈ cs, ∃ s, c = .normal s) →
      cs.foldl (cleanStep absolute) acc = acc ++ cs := by
  intro cs
  induction cs with
  | nil => intro acc _; simp
  | cons c t ih =>
    intro acc h
    obtain ⟨s, rfl⟩ := h c (List.mem_cons_self c t)
    rw [List.foldl_cons,
      show cleanStep absolute acc (.normal s) = acc ++ [.normal s] from rfl,
      ih _ (fun x hx => h x (List.mem_cons_of_mem _ hx))]
    simp

theorem setExtension_cons_cons (ext : Str) (a b : Component) (t2 : List Component) :
    setExtension ext (a :: b :: t2) = a :: setExtension ext (b :: t2) := by
  cases a <;> rfl

theorem setExtension_all_normal (ext : Str) :
    ∀ cs : List Component, (∀ c ∈ cs, ∃ s, c = .normal s) →
      ∀ c ∈ setExtension ext cs, ∃ s, c = .normal s := by
  intro cs
  induction cs with
  | nil => intro _ c hc; cases hc
  | cons a t ih =>
    intro h c hc
    cases t with
    | nil =>
      obtain ⟨s, rfl⟩ := h a (List.mem_cons_self a [])
      have hc0 : c = Component.normal (stemOf s ++ '.' :: ext) := by
        simpa [setExtension] using hc
      exact ⟨_, hc0⟩
    | cons b t2 =>
      rw [setExtension_cons_cons] at hc
      rcases List.mem_cons.mp hc with rfl | h2
      · exact h c (List.mem_cons_self c _)
      · exact ih (fun x hx => h x (List.mem_cons_of_mem _ hx)) c h2

theorem setExtension_ne_nil (ext : Str) (cs : List Component) (h : cs ≠ []) :
    setExtension ext cs ≠ [] := by
  cases cs with
  | nil => exact absurd rfl h
  | cons a t =>
    cases t with
    | nil => cases a <;> simp [setExtension]
    | cons b t2 =>
      rw [setExtension_cons_cons]
      simp

theorem tryFrom_of_frame_missing (b : Buffer) (h : b (str "frame") = none) :
    FFmpegProgress.tryFromParsedProgress b = .error (.error (str "frame")) := by
  simp only [FFmpegProgress.tryFromParsedProgress, h]

theorem tryFrom_of_frame_malformed (b : Buffer) (fv : Str)
    (h : b (str "frame") = some fv) (hp : parseU64 fv = none) :
    FFmpegProgress.tryFromParsedProgress b = .error (.intError fv) := by
  simp only [FFmpegProgress.tryFromParsedProgress, h, hp]

/-! ## The claims -/

/-- Claim C1. The claim asserts that execute_ffmpeg_encoding drains the
subprocess's stdout and stderr concurrently with each other, so a
subprocess writing more than one pipe buffer to both streams still runs to
completion. The code does not: progress::parse consumes stdout to
end-of-stream before the stderr loop runs. Under the pipe model, with the
code's read order and a capacity-1 stderr pipe, a subprocess that wants to
write two stderr lines before exiting never reaches a state where the
supervisor is done: after the first stderr line fills the pipe, the
subprocess blocks on the second write while the supervisor waits forever
for stdout lines or stdout end-of-stream — the claimed completion is
unreachable, a deadlock. -/
theorem c1_sequential_drain_never_completes :
    ∀ s : PipeState,
      Relation.ReflTransGen (PipeStep 1)
        ⟨[Chan.err, Chan.err], 0, 0, Phase.drainingOut⟩ s →
      s.phase ≠ Phase.done := by
  have key : ∀ s : PipeState,
      Relation.ReflTransGen (PipeStep 1)
        ⟨[Chan.err, Chan.err], 0, 0, Phase.drainingOut⟩ s →
      s = ⟨[Chan.err, Chan.err], 0, 0, Phase.drainingOut⟩ ∨
        s = ⟨[Chan.err], 0, 1, Phase.drainingOut⟩ := by
    intro s h
    induction h with
    | refl => exact Or.inl rfl
    | tail hab hbc ih =>
      rcases ih with rfl | rfl
      · cases hbc with
        | childWriteErr w o e ph he => exact Or.inr rfl
      · cases hbc with
        | childWriteErr w o e ph he => exact absurd he (by omega)
  intro s h
  rcases key s h with rfl | rfl <;> decide

/-- Witness for C1: one enabled step from the initial state (the
subprocess writing its first stderr line) reaches a state that the theorem
shows can never be completed. -/
theorem c1_sequential_drain_never_completes_witness :
    (⟨[Chan.err], 0, 1, Phase.drainingOut⟩ : PipeState).phase ≠ Phase.done :=
  c1_sequential_drain_never_completes _
    (Relation.ReflTransGen.single
      (PipeStep.childWriteErr [Chan.err] 0 0 Phase.drainingOut (by decide)))

/-- Claim C2. The claim requires a line progress=V with V outside
continue/end to be reported as a recoverable protocol error. Evaluating
the embedded parser at such a line: the run ends in the panicked abort —
the unimplemented macro in FFmpegProgressState::from_str, a panic of an
unhandled branch, not a recoverable error value — though indeed no
snapshot is emitted for the cycle. -/
theorem c2_unrecognized_progress_value_panics :
    parse [str "frame=1", str "progress=foo"] =
      ⟨[], some (.panicked (str "foo"))⟩ := by
  decide

/-- Claim C3 (the orchestrator revision that queries the frame count is
modelled from the spec; get_frame_count_from_file_path itself is embedded
from src/lib.rs). For three jobs whose middle job's one-shot ffprobe query
yields unparseable output, the orchestrator still reports a terminal
outcome for every job: jobs 1 and 3 succeed, job 2 alone fails with the
frame-count failure — and job 2's encoding result is never consulted (run
is unconstrained at job 2). -/
theorem c3_frame_count_failure_isolated
    (j1 j2 j3 : Str × Str) (probeOut : Str → Str)
    (run : Str → Str → Except SupervisorError Unit) (n1 n3 : Nat)
    (h1 : getFrameCountFromOutput (probeOut j1.1) = some n1)
    (h2 : getFrameCountFromOutput (probeOut j2.1) = none)
    (h3 : getFrameCountFromOutput (probeOut j3.1) = some n3)
    (hr1 : run j1.1 j1.2 = .ok ()) (hr3 : run j3.1 j3.2 = .ok ()) :
    orchestrateWithFrameCount [j1, j2, j3] probeOut run =
      [(j1, .success), (j2, .frameCountFailure), (j3, .success)] := by
  unfold orchestrateWithFrameCount
  rw [List.map_cons, List.map_cons, List.map_cons, List.map_nil,
    h1, h2, h3, hr1, hr3]

/-- Witness for C3: a concrete three-job batch where the middle ffprobe
output is not a number. -/
theorem c3_frame_count_failure_isolated_witness :
    getFrameCountFromOutput (str "5") = some 5 ∧
    getFrameCountFromOutput (str "oops") = none ∧
    orchestrateWithFrameCount
        [(str "a.mov", str "a.webm"), (str "b.mov", str "b.webm"),
          (str "c.mov", str "c.webm")]
        (fun i => if i = str "b.mov" then str "oops" else str "5")
        (fun _ _ => .ok ()) =
      [((str "a.mov", str "a.webm"), .success),
        ((str "b.mov", str "b.webm"), .frameCountFailure),
        ((str "c.mov", str "c.webm"), .success)] :=
  ⟨by decide, by decide,
    c3_frame_count_failure_isolated _ _ _ _ _ 5 5
      (by decide) (by decide) (by decide) rfl rfl⟩

/-- Claim C4. For every well-formed stream of frame=N / progress=P pairs
(frame values representable as u64), the parser finishes without error and
delivers exactly one snapshot per progress line, in order, whose frame is
the most recently seen frame value and whose phase is P. -/
theorem c4_one_snapshot_per_progress_line (ps : List (Nat × FFmpegProgressState))
    (h : ∀ p ∈ ps, p.1 < 2 ^ 64) :
    parse (pairLines ps) = ⟨ps.map (fun p => ⟨p.1, p.2⟩), none⟩ :=
  parseFrom_pairLines ps h

/-- Witness for C4: the spec's round-trip stream frame=10, progress=continue,
frame=20, progress=end yields exactly the two snapshots (10, Continue) then
(20, End). -/
theorem c4_one_snapshot_per_progress_line_witness :
    pairLines [(10, .Continue), (20, .End)] =
      [str "frame=10", str "progress=continue", str "frame=20", str "progress=end"] ∧
    parse [str "frame=10", str "progress=continue", str "frame=20", str "progress=end"] =
      ⟨[⟨10, .Continue⟩, ⟨20, .End⟩], none⟩ := by
  constructor
  · decide
  · have h2 := c4_one_snapshot_per_progress_line
      [(10, .Continue), (20, .End)] (by decide)
    rw [show pairLines [(10, .Continue), (20, .End)] =
      [str "frame=10", str "progress=continue", str "frame=20", str "progress=end"]
      from by decide] at h2
    exact h2

/-- Claim C5 counterexample: the claim says the Failure diagnostic exactly
equals the concatenation of the standard-error lines trimmed of a single
trailing line break, with no other transformation. For the single stderr
line built of a space then the letter a, the code's diagnostic is the
letter a alone — its leading whitespace was trimmed — which differs from
the claimed text. -/
theorem c5_diagnostic_not_exact_concatenation :
    (executeFFmpegEncoding [] [str " a"] ⟨false⟩).2 =
      .error (.ffmpeg ⟨false⟩ (str "a")) ∧
    str "a" ≠ specDiagnostic [str " a"] := by
  constructor
  · rfl
  · decide

/-- Claim C5 amended: whenever the Supervisor observes a non-success exit
status (with a well-formed progress stream), it returns the FFmpegError
carrying that status, and the diagnostic text equals the standard-error
lines each trimmed of trailing whitespace, with whitespace-only lines
dropped, the first remaining line also trimmed of leading whitespace, all
joined by single line breaks. -/
theorem c5_diagnostic_is_clean_join (stdoutLines stderrLines : List Str)
    (status : ExitStatus) (hp : (parse stdoutLines).abort = none)
    (hs : status.success = false) :
    (executeFFmpegEncoding stdoutLines stderrLines status).2 =
      .error (.ffmpeg status (cleanJoin stderrLines)) := by
  rw [executeFFmpegEncoding_result_of_ok _ _ _ hp, if_neg (by simp [hs]),
    errorStringFold_eq_cleanJoin]

/-- Witness for C5's amended claim at a concrete failing run. -/
theorem c5_diagnostic_is_clean_join_witness :
    (parse ([] : List Str)).abort = none ∧
    (⟨false⟩ : ExitStatus).success = false ∧
    (executeFFmpegEncoding [] [str " a ", str "  ", str "b  "] ⟨false⟩).2 =
      .error (.ffmpeg ⟨false⟩ (cleanJoin [str " a ", str "  ", str "b  "])) :=
  ⟨rfl, rfl, c5_diagnostic_is_clean_join [] _ _ rfl rfl⟩

/-- Claim C6: with a well-formed progress stream, the Supervisor returns
success exactly when the exit status indicates success, and otherwise the
FFmpegError carrying that status and the accumulated stderr text of the
whole diagnostic stream. -/
theorem c6_success_iff_exit_success (stdoutLines stderrLines : List Str)
    (status : ExitStatus) (hp : (parse stdoutLines).abort = none) :
    ((executeFFmpegEncoding stdoutLines stderrLines status).2 = .ok () ↔
      status.success = true) ∧
    (status.success = false →
      (executeFFmpegEncoding stdoutLines stderrLines status).2 =
        .error (.ffmpeg status (errorStringFold stderrLines))) := by
  rw [executeFFmpegEncoding_result_of_ok _ _ _ hp]
  cases hs : status.success <;> simp

/-- Witness for C6 at a concrete successful run. -/
theorem c6_success_iff_exit_success_witness :
    (parse [str "frame=1", str "progress=end"]).abort = none ∧
    (executeFFmpegEncoding [str "frame=1", str "progress=end"] [] ⟨true⟩).2 =
      .ok () :=
  ⟨by decide,
    ((c6_success_iff_exit_success _ [] ⟨true⟩ (by decide)).1).mpr rfl⟩

/-- Claim C7: a parser abort makes execute_ffmpeg_encoding return the
protocol-level error — a value distinct from the process-failure
FFmpegError constructor — and the whole result is independent of the
diagnostic stream and of the exit status, reflecting that the question
mark operator on progress::parse returns before the stderr loop or the
status await are reached. -/
theorem c7_protocol_error_propagates_immediately (stdoutLines : List Str)
    (e : ParseAbort) (hp : (parse stdoutLines).abort = some e) :
    (∀ (stderrLines : List Str) (status : ExitStatus),
      (executeFFmpegEncoding stdoutLines stderrLines status).2 =
        .error (.protocol e)) ∧
    (∀ (stderrLines stderrLines' : List Str) (status status' : ExitStatus),
      executeFFmpegEncoding stdoutLines stderrLines status =
        executeFFmpegEncoding stdoutLines stderrLines' status') ∧
    (∀ (st : ExitStatus) (d : Str), SupervisorError.protocol e ≠ .ffmpeg st d) := by
  refine ⟨?_, ?_, ?_⟩
  · intro se st
    exact executeFFmpegEncoding_result_of_abort _ _ _ _ hp
  · intro se se' st st'
    unfold executeFFmpegEncoding
    rw [hp]
  · intro st d h
    exact SupervisorError.noConfusion h

/-- Witness for C7: a progress line with no preceding frame aborts the
parse, and the supervised run reports the protocol error even though the
exit status is success. -/
theorem c7_protocol_error_propagates_immediately_witness :
    (parse [str "progress=end"]).abort = some (.error (str "frame")) ∧
    (executeFFmpegEncoding [str "progress=end"] [str "noise"] ⟨true⟩).2 =
      .error (.protocol (.error (str "frame"))) :=
  ⟨by decide, (c7_protocol_error_propagates_immediately _ _ (by decide)).1 _ _⟩

/-- Claim C8: a progress line emitted while the buffer holds no frame key
yields the missing-key error for frame and no snapshot; a frame line whose
value does not parse as a u64 followed by a progress line yields the
malformed-value error and no snapshot. -/
theorem c8_missing_frame_or_malformed_frame (b : Buffer) (v fv : Str)
    (rest rest2 : List Str) (hb : b (str "frame") = none)
    (hfv : parseU64 (trim fv) = none) :
    parseFrom b ((str "progress=" ++ v) :: rest) =
      ⟨[], some (.error (str "frame"))⟩ ∧
    parseFrom b ((str "frame=" ++ fv) :: (str "progress=" ++ v) :: rest2) =
      ⟨[], some (.intError (trim fv))⟩ := by
  constructor
  · have hlook : (b.insert (str "progress") (trim v)) (str "frame") = none := by
      show (if str "frame" = str "progress" then some (trim v)
        else b (str "frame")) = none
      rw [if_neg (by decide), hb]
    exact parseFrom_cons_progress_err _ _ _ _ _ (parseKeyValuePair_progress v)
      (tryFrom_of_frame_missing _ hlook)
  · rw [parseFrom_cons_insert _ _ _ _ _ (parseKeyValuePair_frame fv) (by decide)]
    have hlookf : ((b.insert (str "frame") (trim fv)).insert
        (str "progress") (trim v)) (str "frame") = some (trim fv) := by
      show (if str "frame" = str "progress" then some (trim v)
        else if str "frame" = str "frame" then some (trim fv)
        else b (str "frame")) = some (trim fv)
      rw [if_neg (by decide), if_pos rfl]
    exact parseFrom_cons_progress_err _ _ _ _ _ (parseKeyValuePair_progress v)
      (tryFrom_of_frame_malformed _ _ hlookf hfv)

/-- Witness for C8 at concrete streams starting from the empty buffer. -/
theorem c8_missing_frame_or_malformed_frame_witness :
    Buffer.empty (str "frame") = none ∧
    parseU64 (trim (str "abc")) = none ∧
    parse [str "progress=end"] = ⟨[], some (.error (str "frame"))⟩ ∧
    parse [str "frame=abc", str "progress=end"] =
      ⟨[], some (.intError (str "abc"))⟩ := by
  refine ⟨rfl, by decide, ?_, ?_⟩
  · exact (c8_missing_frame_or_malformed_frame Buffer.empty (str "end")
      (str "abc") [] [] rfl (by decide)).1
  · exact (c8_missing_frame_or_malformed_frame Buffer.empty (str "end")
      (str "abc") [] [] rfl (by decide)).2

/-- Claim C9: after resolution, main's job loop reports exactly one
terminal outcome per job, each job's report depending only on that job's
own result (so one failure neither cancels nor suppresses another job's
report), main itself returns Ok regardless of job outcomes, and the report
for a success is the output path while the report for a failure is the
input path, with the error carried only under the verbose flag. -/
theorem c9_orchestrator_reports_every_job (verbose : Bool)
    (jobs : List (Str × Str)) (run : Str → Str → Except SupervisorError Unit) :
    (mainAfterResolution verbose jobs run).2 = .ok () ∧
    (orchestrate verbose jobs run).length = jobs.length ∧
    (∀ i : Nat, (orchestrate verbose jobs run)[i]? =
      (jobs[i]?).map (fun j => reportFor verbose j.1 j.2 (run j.1 j.2))) ∧
    (∀ inp outp : Str, reportFor verbose inp outp (.ok ()) = .converted outp) ∧
    (∀ (inp outp : Str) (e : SupervisorError),
      reportFor verbose inp outp (.error e) =
        if verbose then .failedVerbose inp e else .failed inp) := by
  refine ⟨rfl, List.length_map _ _, ?_, fun _ _ => rfl, fun _ _ _ => rfl⟩
  intro i
  exact List.getElem?_map _ _ _

/-- Claim C10: in the path resolver's per-input mapping, an absolute input
path makes the output directory irrelevant — the output is the cleaned
input path with its extension replaced, whatever directory is supplied —
while a relative input path (of ordinary components) lands inside the
output directory with its relative parent components preserved. -/
theorem c10_absolute_input_ignores_output_directory (d d' input : RPath)
    (ext : Str) :
    (input.absolute = true →
      outputFilePathFor d input ext = outputFilePathFor d' input ext ∧
      outputFilePathFor d input ext = (input.withExtension ext).clean) ∧
    (input.absolute = false → input.components ≠ [] →
      (∀ c ∈ d.components, ∃ s, c = .normal s) →
      (∀ c ∈ input.components, ∃ s, c = .normal s) →
      outputFilePathFor d input ext =
        ⟨d.absolute, d.components ++ setExtension ext input.components⟩) := by
  constructor
  · intro habs
    have hwa : (input.withExtension ext).absolute = true := habs
    unfold outputFilePathFor RPath.join
    rw [if_pos hwa, if_pos hwa]
    exact ⟨rfl, rfl⟩
  · intro habs hne hd hin
    have hwa : (input.withExtension ext).absolute = false := habs
    unfold outputFilePathFor RPath.join
    rw [if_neg (by simp [hwa])]
    have hcomps : (input.withExtension ext).components =
        setExtension ext input.components := rfl
    rw [hcomps]
    have hall : ∀ c ∈ d.components ++ setExtension ext input.components,
        ∃ s, c = .normal s := by
      intro c hc
      rcases List.mem_append.mp hc with h1 | h1
      · exact hd c h1
      · exact setExtension_all_normal ext input.components hin c h1
    have hclean : cleanComponents d.absolute
        (d.components ++ setExtension ext input.components) =
        d.components ++ setExtension ext input.components := by
      unfold cleanComponents
      rw [cleanComponents_all_normal d.absolute _ [] hall, List.nil_append]
    have hcs : d.components ++ setExtension ext input.components ≠ [] := by
      simp [setExtension_ne_nil ext input.components hne]
    unfold RPath.clean
    rw [hclean, if_neg (by simp [hcs])]

/-- Witness for C10: for an absolute input, two different output
directories give the same output path; for a relative input, the output
lands under the output directory with the extension replaced. -/
theorem c10_absolute_input_ignores_output_directory_witness :
    outputFilePathFor ⟨true, [Component.normal (str "out")]⟩
        ⟨true, [Component.normal (str "v"), Component.normal (str "b.mov")]⟩
        (str "webm") =
      outputFilePathFor ⟨false, [Component.normal (str "elsewhere")]⟩
        ⟨true, [Component.normal (str "v"), Component.normal (str "b.mov")]⟩
        (str "webm") ∧
    outputFilePathFor ⟨false, [Component.normal (str "out")]⟩
        ⟨false, [Component.normal (str "a"), Component.normal (str "b.mov")]⟩
        (str "webm") =
      ⟨false, [Component.normal (str "out"), Component.normal (str "a"),
        Component.normal (str "b.webm")]⟩ := by
  constructor
  · exact ((c10_absolute_input_ignores_output_directory _ _
      ⟨true, [Component.normal (str "v"), Component.normal (str "b.mov")]⟩
      (str "webm")).1 rfl).1
  · have h2 := (c10_absolute_input_ignores_output_directory
      ⟨false, [Component.normal (str "out")]⟩ ⟨false, []⟩
      ⟨false, [Component.normal (str "a"), Component.normal (str "b.mov")]⟩
      (str "webm")).2 rfl (by simp)
      (by
        intro c hc
        simp only [List.mem_singleton] at hc
        exact ⟨_, hc⟩)
      (by
        intro c hc
        simp only [List.mem_cons, List.not_mem_nil, or_false] at hc
        rcases hc with rfl | rfl
        · exact ⟨_, rfl⟩
        · exact ⟨_, rfl⟩)
    rw [h2]
    decide

end Qonvert
